import Mathlib

/-!
Verification development for the Solana vanity-address generator
(src/main.rs).  Strings are modelled as lists of characters; the
Rust operations str::starts_with, str::ends_with, str::to_lowercase and
str::contains become the corresponding list operations.  The concurrent
search loop generate_vanity_address is modelled further below as a
small-step interleaving relation over a shared coordinator state with one
program counter per worker.
-/

set_option autoImplicit false

namespace Vanity

/-- Strings of the Rust program, modelled as lists of characters. -/
abbrev Str := List Char

/-- Rust str::to_lowercase, character-wise (all relevant data is ASCII). -/
def toLowercase (s : Str) : Str := s.map Char.toLower

/-- Rust address.starts_with(p). -/
def startsWith (s p : Str) : Bool := p.isPrefixOf s

/-- Rust address.ends_with(p). -/
def endsWith (s p : Str) : Bool := p.isSuffixOf s

/-- The 58-character Base58 alphabet literal from VanityMatcher::new
(src/main.rs line 49). -/
def base58Chars : Str :=
  ("123456789ABCDEFGHJKLMNPQRSTUVWXYZabcdefghijkmnopqrstuvwxyz").toList

/-- The error message of src/main.rs line 45. -/
def noPatternMsg : Str :=
  ("At least one of --prefix or --suffix must be specified").toList

/-- The error message of src/main.rs line 53. -/
def emptyPrefixMsg : Str := ("Prefix cannot be empty").toList

/-- The error message of src/main.rs line 67. -/
def emptySuffixMsg : Str := ("Suffix cannot be empty").toList

/-- The error message of src/main.rs line 57. -/
def illegalPrefixMsg (c : Char) : Str :=
  ("Invalid Base58 character in prefix: ").toList ++ ['\'', c, '\'']

/-- The error message of src/main.rs line 71. -/
def illegalSuffixMsg (c : Char) : Str :=
  ("Invalid Base58 character in suffix: ").toList ++ ['\'', c, '\'']

instance {ε α : Type} [DecidableEq ε] [DecidableEq α] :
    DecidableEq (Except ε α) := fun x y =>
  match x, y with
  | .error a, .error b =>
    if h : a = b then isTrue (congrArg Except.error h)
    else isFalse (fun hq => h (Except.error.inj hq))
  | .error _, .ok _ => isFalse (fun hq => Except.noConfusion hq)
  | .ok _, .error _ => isFalse (fun hq => Except.noConfusion hq)
  | .ok a, .ok b =>
    if h : a = b then isTrue (congrArg Except.ok h)
    else isFalse (fun hq => h (Except.ok.inj hq))

/-- The struct VanityMatcher of src/main.rs lines 36-40.  The Rust field
names are prefix and suffix; they are rendered here as prefix_pat and
suffix_pat. -/
structure VanityMatcher where
  prefix_pat : Option Str
  suffix_pat : Option Str
  case_sensitive : Bool
deriving DecidableEq, Repr

/-- One of the two identical anchor-validation blocks of
VanityMatcher::new (src/main.rs lines 51-63 for the prefix and 65-77 for
the suffix): reject an empty anchor, reject the first character outside
base58Chars, otherwise store the anchor, lower-cased unless matching is
case-sensitive.  The two blocks differ only in their error messages,
passed here as emptyMsg and illegalMsg. -/
def validateAnchor (emptyMsg : Str) (illegalMsg : Char → Str)
    (case_sensitive : Bool) : Option Str → Except Str (Option Str)
  | some p =>
    if p.isEmpty then
      .error emptyMsg
    else
      match p.find? (fun c => !(base58Chars.contains c)) with
      | some c => .error (illegalMsg c)
      | none => .ok (some (if case_sensitive then p else toLowercase p))
  | none => .ok none

/-- VanityMatcher::new (src/main.rs lines 43-84): fail when both anchors
are absent, then validate the prefix, then the suffix. -/
def VanityMatcher.new (prefix_pat suffix_pat : Option Str)
    (case_sensitive : Bool) : Except Str VanityMatcher :=
  if prefix_pat.isNone && suffix_pat.isNone then
    .error noPatternMsg
  else
    match validateAnchor emptyPrefixMsg illegalPrefixMsg case_sensitive prefix_pat with
    | .error e => .error e
    | .ok validated_prefix_pat =>
      match validateAnchor emptySuffixMsg illegalSuffixMsg case_sensitive suffix_pat with
      | .error e => .error e
      | .ok validated_suffix_pat =>
        .ok ⟨validated_prefix_pat, validated_suffix_pat, case_sensitive⟩

/-- VanityMatcher::matches (src/main.rs lines 86-104). -/
def VanityMatcher.matches (m : VanityMatcher) (address : Str) : Bool :=
  let compare_address := if m.case_sensitive then address else toLowercase address
  let matched := true
  let matched := match m.prefix_pat with
    | some p => matched && startsWith compare_address p
    | none => matched
  let matched := match m.suffix_pat with
    | some s => matched && endsWith compare_address s
    | none => matched
  matched

/-- VanityMatcher::description (src/main.rs lines 106-119); the
(None, None) arm is unreachable! in Rust and is modelled as none. -/
def VanityMatcher.description (m : VanityMatcher) : Option Str :=
  let sensitivity : Str :=
    if m.case_sensitive then ("case-sensitive").toList
    else ("case-insensitive").toList
  match m.prefix_pat, m.suffix_pat with
  | some p, some s =>
    some (("prefix ").toList ++ ['\''] ++ p ++ ['\''] ++ (" and suffix ").toList
      ++ ['\''] ++ s ++ ['\'', ' ', '('] ++ sensitivity ++ [')'])
  | some p, none =>
    some (("prefix ").toList ++ ['\''] ++ p ++ ['\'', ' ', '('] ++ sensitivity ++ [')'])
  | none, some s =>
    some (("suffix ").toList ++ ['\''] ++ s ++ ['\'', ' ', '('] ++ sensitivity ++ [')'])
  | none, none => none

/-- Spec-side reference: case-insensitive matching as folding both the
raw pattern and the candidate to lower case before comparing. -/
def foldedSpecMatch (pre suf : Option Str) (I : Str) : Bool :=
  (match pre with
   | some p => startsWith (toLowercase I) (toLowercase p)
   | none => true) &&
  (match suf with
   | some s => endsWith (toLowercase I) (toLowercase s)
   | none => true)

/-- Spec-side reference: case-sensitive matching with no folding at all. -/
def exactSpecMatch (pre suf : Option Str) (I : Str) : Bool :=
  (match pre with
   | some p => startsWith I p
   | none => true) &&
  (match suf with
   | some s => endsWith I s
   | none => true)

/-- Recogniser for the IllegalCharacter error class: both illegal-character
messages of the program start with this fixed text. -/
def isIllegalCharErrMsg (e : Str) : Bool :=
  ("Invalid Base58 character").toList.isPrefixOf e

/-- A keypair of the external Keypair source: opaque private material plus
its Base58-rendered public identifier (keypair.pubkey().to_string()). -/
structure Keypair where
  secret : List Nat
  pubkey : Str
deriving DecidableEq, Repr

/-- Program counter of one worker executing the body of
generate_vanity_address (src/main.rs lines 130-146).  One constructor per
shared-state access: loopHead is the found.load of the while condition
(key generation is thread-local and is bundled into leaving loopHead);
incAttempts is attempts.fetch_add; testMatch is the local matcher call;
acquireLock is results.lock(); pushResult is results_guard.push;
incFound is found_count.fetch_add (its post-increment value is carried in
the following counters); unlockStep is drop(results_guard);
checkThreshold is the comparison current_count >= target_count together
with the conditional found.store(true); done is loop exit. -/
inductive WorkerPC where
  | loopHead
  | incAttempts (kp : Keypair)
  | testMatch (kp : Keypair)
  | acquireLock (kp : Keypair)
  | pushResult (kp : Keypair)
  | incFound
  | unlockStep (current : Nat)
  | checkThreshold (current : Nat)
  | done
deriving DecidableEq, Repr

/-- The shared coordinator state of generate_vanity_address — found,
attempts, found_count, the mutex-protected results vector and the mutex
itself — together with the program counter of each of the n workers. -/
structure SearchState (n : Nat) where
  found : Bool
  attempts : Nat
  found_count : Nat
  results : List (Keypair × Str)
  lock : Option (Fin n)
  pcs : Fin n → WorkerPC

instance {n : Nat} : DecidableEq (SearchState n) := fun s t => by
  cases s
  cases t
  exact decidable_of_iff _
    (iff_of_eq (SearchState.mk.injEq _ _ _ _ _ _ _ _ _ _ _ _).symm)

/-- Small-step interleaving semantics of generate_vanity_address for
worker i: each constructor is one shared-memory access of the Rust loop
body, against matcher m and target target. -/
inductive Step (m : VanityMatcher) (target : Nat) (n : Nat) (i : Fin n) :
    SearchState n → SearchState n → Prop where
  | loopExit (s : SearchState n) (h : s.pcs i = .loopHead) (hf : s.found = true) :
      Step m target n i s { s with pcs := Function.update s.pcs i .done }
  | loopGen (s : SearchState n) (kp : Keypair) (h : s.pcs i = .loopHead)
      (hf : s.found = false) :
      Step m target n i s { s with pcs := Function.update s.pcs i (.incAttempts kp) }
  | stepIncAttempts (s : SearchState n) (kp : Keypair) (h : s.pcs i = .incAttempts kp) :
      Step m target n i s { s with
        attempts := s.attempts + 1,
        pcs := Function.update s.pcs i (.testMatch kp) }
  | matchYes (s : SearchState n) (kp : Keypair) (h : s.pcs i = .testMatch kp)
      (hm : m.matches kp.pubkey = true) :
      Step m target n i s { s with pcs := Function.update s.pcs i (.acquireLock kp) }
  | matchNo (s : SearchState n) (kp : Keypair) (h : s.pcs i = .testMatch kp)
      (hm : m.matches kp.pubkey = false) :
      Step m target n i s { s with pcs := Function.update s.pcs i .loopHead }
  | acquire (s : SearchState n) (kp : Keypair) (h : s.pcs i = .acquireLock kp)
      (hl : s.lock = none) :
      Step m target n i s { s with
        lock := some i,
        pcs := Function.update s.pcs i (.pushResult kp) }
  | push (s : SearchState n) (kp : Keypair) (h : s.pcs i = .pushResult kp) :
      Step m target n i s { s with
        results := s.results ++ [(kp, kp.pubkey)],
        pcs := Function.update s.pcs i .incFound }
  | incFoundStep (s : SearchState n) (h : s.pcs i = .incFound) :
      Step m target n i s { s with
        found_count := s.found_count + 1,
        pcs := Function.update s.pcs i (.unlockStep (s.found_count + 1)) }
  | unlock (s : SearchState n) (c : Nat) (h : s.pcs i = .unlockStep c) :
      Step m target n i s { s with
        lock := none,
        pcs := Function.update s.pcs i (.checkThreshold c) }
  | thresholdHit (s : SearchState n) (c : Nat) (h : s.pcs i = .checkThreshold c)
      (hc : target ≤ c) :
      Step m target n i s { s with
        found := true,
        pcs := Function.update s.pcs i .loopHead }
  | thresholdMiss (s : SearchState n) (c : Nat) (h : s.pcs i = .checkThreshold c)
      (hc : c < target) :
      Step m target n i s { s with pcs := Function.update s.pcs i .loopHead }

/-- A step of the whole pool: some worker takes a step. -/
def StepAny (m : VanityMatcher) (target n : Nat)
    (s s' : SearchState n) : Prop :=
  ∃ i, Step m target n i s s'

/-- The state at the start of the search (src/main.rs lines 183-186):
flag false, counters zero, no results, lock free, all workers at the top
of the loop. -/
def initState (n : Nat) : SearchState n :=
  ⟨false, 0, 0, [], none, fun _ => .loopHead⟩

/-- The states a run with n workers can reach. -/
def Reachable (m : VanityMatcher) (target n : Nat) (s : SearchState n) : Prop :=
  Relation.ReflTransGen (StepAny m target n) (initState n) s

/-- Whether a program counter is inside the results-lock protected
section (between a successful results.lock() and drop(results_guard)). -/
def inCritical : WorkerPC → Bool
  | .pushResult _ => true
  | .incFound => true
  | .unlockStep _ => true
  | _ => false

/-- Contribution of a worker to the gap between results.length and
found_count: 1 exactly when it has pushed but not yet incremented. -/
def incFoundWeight : WorkerPC → Nat
  | .incFound => 1
  | _ => 0

/-- Contribution of a worker to the gap between attempts and
found_count: 1 exactly when it has incremented attempts for its current
candidate but not yet incremented found_count for it. -/
def pendingWeight : WorkerPC → Nat
  | .testMatch _ => 1
  | .acquireLock _ => 1
  | .pushResult _ => 1
  | .incFound => 1
  | _ => 0

/-- The projection of the coordinator state touched by the report
protocol: the terminated flag, the found counter and the results. -/
structure ReportView where
  found : Bool
  found_count : Nat
  results : List (Keypair × Str)
deriving DecidableEq, Repr

/-- View of a search state as a report-protocol state. -/
def SearchState.view {n : Nat} (s : SearchState n) : ReportView :=
  ⟨s.found, s.found_count, s.results⟩

/-- Reference report sequence, following the specification text: after
finding a match the worker acquires the results lock, appends its
keypair, increments found_count, releases the lock, reads the
post-increment value, and sets terminated to true if and only if that
value is at least targetCount (leaving the flag as it was otherwise). -/
def specReportSequence (target : Nat) (v : ReportView) (kp : Keypair) :
    ReportView :=
  let results := v.results ++ [(kp, kp.pubkey)]
  let found_count := v.found_count + 1
  let current := found_count
  { found := if current ≥ target then true else v.found
    found_count := found_count
    results := results }

/-- The run-wide invariant of the coordinator state. -/
structure Inv (target n : Nat) (s : SearchState n) : Prop where
  results_len : s.results.length = s.found_count + ∑ j, incFoundWeight (s.pcs j)
  observed_le : ∀ i c, s.pcs i = .unlockStep c ∨ s.pcs i = .checkThreshold c →
    c ≤ s.found_count
  found_target : s.found = true → target ≤ s.found_count
  attempts_ge : s.found_count + ∑ j, pendingWeight (s.pcs j) ≤ s.attempts
  done_found : ∀ i, s.pcs i = .done → s.found = true

/-- Composite effect on the shared state of the five solo steps a worker
takes after its candidate matches (acquire, push, increment, unlock,
threshold check), used to compare the embedded worker routine with the
reference report sequence of the specification. -/
def reportSteps {n : Nat} (target : Nat) (i : Fin n) (kp : Keypair)
    (s : SearchState n) : SearchState n :=
  { s with
    found := if s.found_count + 1 ≥ target then true else s.found,
    found_count := s.found_count + 1,
    results := s.results ++ [(kp, kp.pubkey)],
    lock := none,
    pcs := Function.update s.pcs i .loopHead }

/-- A concrete keypair whose identifier is the single character a. -/
def okp : Keypair := ⟨[1], ['a']⟩

/-- A concrete matcher (case-insensitive prefix a) that accepts okp. -/
def overshootMatcher : VanityMatcher := ⟨some ['a'], none, false⟩

/-- States of a concrete two-worker run with target count 1 in which both
workers find a match before either observes the terminated flag.  tr1 to
tr6: both workers generate okp, count their attempts and pass the
matcher; tr7 to tr11: worker 0 reports its match and sets terminated;
tr12 to tr16: worker 1, already past the flag check, reports a second
match; tr17, tr18: both workers observe the flag and exit. -/
def tr1 : SearchState 2 :=
  ⟨false, 0, 0, [], none, ![.incAttempts okp, .loopHead]⟩

/-- Second state of the concrete overshoot run. -/
def tr2 : SearchState 2 :=
  ⟨false, 1, 0, [], none, ![.testMatch okp, .loopHead]⟩

/-- Third state of the concrete overshoot run. -/
def tr3 : SearchState 2 :=
  ⟨false, 1, 0, [], none, ![.acquireLock okp, .loopHead]⟩

/-- Fourth state of the concrete overshoot run. -/
def tr4 : SearchState 2 :=
  ⟨false, 1, 0, [], none, ![.acquireLock okp, .incAttempts okp]⟩

/-- Fifth state of the concrete overshoot run. -/
def tr5 : SearchState 2 :=
  ⟨false, 2, 0, [], none, ![.acquireLock okp, .testMatch okp]⟩

/-- Sixth state of the concrete overshoot run. -/
def tr6 : SearchState 2 :=
  ⟨false, 2, 0, [], none, ![.acquireLock okp, .acquireLock okp]⟩

/-- Seventh state of the concrete overshoot run. -/
def tr7 : SearchState 2 :=
  ⟨false, 2, 0, [], some 0, ![.pushResult okp, .acquireLock okp]⟩

/-- Eighth state of the concrete overshoot run. -/
def tr8 : SearchState 2 :=
  ⟨false, 2, 0, [(okp, ['a'])], some 0, ![.incFound, .acquireLock okp]⟩

/-- Ninth state of the concrete overshoot run. -/
def tr9 : SearchState 2 :=
  ⟨false, 2, 1, [(okp, ['a'])], some 0, ![.unlockStep 1, .acquireLock okp]⟩

/-- Tenth state of the concrete overshoot run. -/
def tr10 : SearchState 2 :=
  ⟨false, 2, 1, [(okp, ['a'])], none, ![.checkThreshold 1, .acquireLock okp]⟩

/-- Eleventh state of the concrete overshoot run. -/
def tr11 : SearchState 2 :=
  ⟨true, 2, 1, [(okp, ['a'])], none, ![.loopHead, .acquireLock okp]⟩

/-- Twelfth state of the concrete overshoot run. -/
def tr12 : SearchState 2 :=
  ⟨true, 2, 1, [(okp, ['a'])], some 1, ![.loopHead, .pushResult okp]⟩

/-- Thirteenth state of the concrete overshoot run. -/
def tr13 : SearchState 2 :=
  ⟨true, 2, 1, [(okp, ['a']), (okp, ['a'])], some 1, ![.loopHead, .incFound]⟩

/-- Fourteenth state of the concrete overshoot run. -/
def tr14 : SearchState 2 :=
  ⟨true, 2, 2, [(okp, ['a']), (okp, ['a'])], some 1, ![.loopHead, .unlockStep 2]⟩

/-- Fifteenth state of the concrete overshoot run. -/
def tr15 : SearchState 2 :=
  ⟨true, 2, 2, [(okp, ['a']), (okp, ['a'])], none, ![.loopHead, .checkThreshold 2]⟩

/-- Sixteenth state of the concrete overshoot run. -/
def tr16 : SearchState 2 :=
  ⟨true, 2, 2, [(okp, ['a']), (okp, ['a'])], none, ![.loopHead, .loopHead]⟩

/-- Seventeenth state of the concrete overshoot run. -/
def tr17 : SearchState 2 :=
  ⟨true, 2, 2, [(okp, ['a']), (okp, ['a'])], none, ![.done, .loopHead]⟩

/-- Final state of the concrete overshoot run: both workers done, two
results collected although the target count was one. -/
def overshootFinal : SearchState 2 :=
  ⟨true, 2, 2, [(okp, ['a']), (okp, ['a'])], none, ![.done, .done]⟩

/-- A concrete one-worker state about to enter the report protocol. -/
def c8State : SearchState 1 :=
  ⟨false, 3, 0, [], none, fun _ => .acquireLock okp⟩

/-- Validation of an absent anchor succeeds with no stored anchor. -/
theorem validateAnchor_none (em : Str) (im : Char → Str) (cs : Bool) :
    validateAnchor em im cs none = .ok none := rfl

/-- Validation of an empty anchor fails with the emptiness message. -/
theorem validateAnchor_empty (em : Str) (im : Char → Str) (cs : Bool) :
    validateAnchor em im cs (some []) = .error em := rfl

/-- Reduction of validateAnchor on a non-empty anchor. -/
theorem validateAnchor_cons (em : Str) (im : Char → Str) (cs : Bool)
    (a : Char) (as : Str) :
    validateAnchor em im cs (some (a :: as)) =
      match (a :: as).find? (fun c => !(base58Chars.contains c)) with
      | some c => .error (im c)
      | none => .ok (some (if cs then a :: as else toLowercase (a :: as))) := rfl

/-- Validation fails with the illegal-character message at the first
character outside the alphabet. -/
theorem validateAnchor_illegal (em : Str) (im : Char → Str) (cs : Bool)
    (p : Str) (c : Char)
    (h : p.find? (fun c => !(base58Chars.contains c)) = some c) :
    validateAnchor em im cs (some p) = .error (im c) := by
  cases p with
  | nil => simp at h
  | cons a as => rw [validateAnchor_cons, h]

/-- Validation of a non-empty all-alphabet anchor succeeds and stores the
anchor, lower-cased unless matching is case-sensitive. -/
theorem validateAnchor_legal (em : Str) (im : Char → Str) (cs : Bool)
    (p : Str) (hne : p ≠ [])
    (hall : ∀ c ∈ p, base58Chars.contains c = true) :
    validateAnchor em im cs (some p) =
      .ok (some (if cs then p else toLowercase p)) := by
  have hf : p.find? (fun c => !(base58Chars.contains c)) = none := by
    rw [List.find?_eq_none]
    intro x hx
    simpa using hall x hx
  cases p with
  | nil => exact absurd rfl hne
  | cons a as => rw [validateAnchor_cons, hf]

/-- Inversion for a successful anchor validation. -/
theorem validateAnchor_ok_inv (em : Str) (im : Char → Str) (cs : Bool)
    (a r : Option Str) (h : validateAnchor em im cs a = .ok r) :
    (a = none ∧ r = none) ∨
    (∃ p, a = some p ∧ p ≠ [] ∧
      (∀ c ∈ p, base58Chars.contains c = true) ∧
      r = some (if cs then p else toLowercase p)) := by
  cases a with
  | none => exact Or.inl ⟨rfl, (Except.ok.inj h).symm⟩
  | some p =>
    refine Or.inr ⟨p, rfl, ?_⟩
    cases p with
    | nil => exact absurd h (by simp [validateAnchor])
    | cons x xs =>
      cases hf : (x :: xs).find? (fun c => !(base58Chars.contains c)) with
      | some c => rw [validateAnchor_illegal em im cs _ c hf] at h; cases h
      | none =>
        refine ⟨List.cons_ne_nil x xs, ?_, ?_⟩
        · intro c hc
          have := (List.find?_eq_none.mp hf) c hc
          simpa using this
        · simp only [validateAnchor, hf, List.isEmpty_cons] at h
          exact (Except.ok.inj h).symm

/-- Inversion for a successful VanityMatcher::new. -/
theorem new_ok_inv (pre suf : Option Str) (cs : Bool) (m : VanityMatcher)
    (h : VanityMatcher.new pre suf cs = .ok m) :
    ¬(pre = none ∧ suf = none) ∧
    validateAnchor emptyPrefixMsg illegalPrefixMsg cs pre = .ok m.prefix_pat ∧
    validateAnchor emptySuffixMsg illegalSuffixMsg cs suf = .ok m.suffix_pat ∧
    m.case_sensitive = cs := by
  by_cases hb : pre.isNone && suf.isNone
  · rw [VanityMatcher.new, if_pos hb] at h
    cases h
  · rw [VanityMatcher.new, if_neg hb] at h
    refine ⟨?_, ?_⟩
    · rintro ⟨rfl, rfl⟩
      exact hb rfl
    · cases hp : validateAnchor emptyPrefixMsg illegalPrefixMsg cs pre with
      | error e => rw [hp] at h; cases h
      | ok vp =>
        cases hs : validateAnchor emptySuffixMsg illegalSuffixMsg cs suf with
        | error e => rw [hp, hs] at h; cases h
        | ok vs =>
          rw [hp, hs] at h
          have hm : m = ⟨vp, vs, cs⟩ := (Except.ok.inj h).symm
          subst hm
          exact ⟨rfl, rfl, rfl⟩

/-- Introduction for a successful VanityMatcher::new. -/
theorem new_ok_of (pre suf : Option Str) (cs : Bool) (vp vs : Option Str)
    (hne : ¬(pre = none ∧ suf = none))
    (hp : validateAnchor emptyPrefixMsg illegalPrefixMsg cs pre = .ok vp)
    (hs : validateAnchor emptySuffixMsg illegalSuffixMsg cs suf = .ok vs) :
    VanityMatcher.new pre suf cs = .ok ⟨vp, vs, cs⟩ := by
  have hb : (pre.isNone && suf.isNone) = false := by
    cases pre with
    | none =>
      cases suf with
      | none => exact absurd ⟨rfl, rfl⟩ hne
      | some s => rfl
    | some p => rfl
  rw [VanityMatcher.new, hb]
  simp only [Bool.false_eq_true, if_false, hp, hs]

/-- Reduction of VanityMatcher.new once the anchors are not both absent. -/
theorem new_guard_false (pre suf : Option Str) (cs : Bool)
    (h : (pre.isNone && suf.isNone) = false) :
    VanityMatcher.new pre suf cs =
      match validateAnchor emptyPrefixMsg illegalPrefixMsg cs pre with
      | .error e => .error e
      | .ok vp =>
        match validateAnchor emptySuffixMsg illegalSuffixMsg cs suf with
        | .error e => .error e
        | .ok vs => .ok ⟨vp, vs, cs⟩ := by
  rw [VanityMatcher.new, h]
  exact if_neg Bool.false_ne_true

/-- Unfolding of VanityMatcher.matches as a conjunction of two
anchor checks on the case-folded candidate. -/
theorem matches_eq (m : VanityMatcher) (I : Str) :
    m.matches I =
      ((match m.prefix_pat with
        | some p => startsWith (if m.case_sensitive then I else toLowercase I) p
        | none => true) &&
       (match m.suffix_pat with
        | some s => endsWith (if m.case_sensitive then I else toLowercase I) s
        | none => true)) := by
  obtain ⟨op, os, cs⟩ := m
  cases op <;> cases os <;> simp [VanityMatcher.matches]

/-- Lower-casing twice is the same as lower-casing once, for every
character of the Base58 alphabet. -/
theorem toLower_toLower_base58 :
    ∀ c ∈ base58Chars, Char.toLower (Char.toLower c) = Char.toLower c := by
  decide

/-- Lower-casing is idempotent on strings drawn from the alphabet. -/
theorem toLowercase_idem_of_legal (p : Str)
    (h : ∀ c ∈ p, base58Chars.contains c = true) :
    toLowercase (toLowercase p) = toLowercase p := by
  unfold toLowercase
  rw [List.map_map]
  apply List.map_congr_left
  intro a ha
  have hmem : a ∈ base58Chars := by simpa using h a ha
  exact toLower_toLower_base58 a hmem

/-- Updating one worker program counter changes a weight sum by the
difference of the old and new weights. -/
theorem sum_update_pc {n : Nat} (g : WorkerPC → Nat) (pcs : Fin n → WorkerPC)
    (i : Fin n) (p : WorkerPC) :
    g (pcs i) + ∑ j, g (Function.update pcs i p j) = g p + ∑ j, g (pcs j) := by
  have h1 : (fun j => g (Function.update pcs i p j))
      = Function.update (fun j => g (pcs j)) i (g p) := by
    funext j
    by_cases hj : j = i
    · subst hj; simp
    · simp [Function.update_apply, hj]
  calc g (pcs i) + ∑ j, g (Function.update pcs i p j)
      = g (pcs i) + ∑ j, Function.update (fun k => g (pcs k)) i (g p) j := by
        rw [h1]
    _ = g (pcs i) + (g p + ∑ j ∈ Finset.univ \ {i}, g (pcs j)) := by
        rw [Finset.sum_update_of_mem (Finset.mem_univ i)]
    _ = g p + (∑ j ∈ Finset.univ \ {i}, g (pcs j) + g (pcs i)) := by omega
    _ = g p + ∑ j, g (pcs j) := by
        rw [← Finset.sum_eq_sum_diff_singleton_add (Finset.mem_univ i)]

/-- Preservation helper for the observed-value clause of the invariant. -/
theorem obs_update {n : Nat} {pcs : Fin n → WorkerPC} {i : Fin n}
    {p : WorkerPC} {fc fc' : Nat}
    (hold : ∀ i' c, pcs i' = .unlockStep c ∨ pcs i' = .checkThreshold c → c ≤ fc)
    (hle : fc ≤ fc')
    (hnew : ∀ c, p = .unlockStep c ∨ p = .checkThreshold c → c ≤ fc') :
    ∀ i' c, Function.update pcs i p i' = .unlockStep c ∨
      Function.update pcs i p i' = .checkThreshold c → c ≤ fc' := by
  intro i' c hpc
  rcases eq_or_ne i' i with rfl | hne
  · rw [Function.update_same] at hpc
    exact hnew c hpc
  · rw [Function.update_noteq hne] at hpc
    exact le_trans (hold i' c hpc) hle

/-- Preservation helper for the done-implies-terminated clause. -/
theorem done_update {n : Nat} {pcs : Fin n → WorkerPC} {i : Fin n}
    {p : WorkerPC} {b b' : Bool}
    (hold : ∀ i', pcs i' = .done → b = true)
    (himp : b = true → b' = true)
    (hnew : p = .done → b' = true) :
    ∀ i', Function.update pcs i p i' = .done → b' = true := by
  intro i' hpc
  rcases eq_or_ne i' i with rfl | hne
  · rw [Function.update_same] at hpc
    exact hnew hpc
  · rw [Function.update_noteq hne] at hpc
    exact himp (hold i' hpc)

/-- The invariant holds in the initial state. -/
theorem inv_init (target n : Nat) : Inv target n (initState n) := by
  refine ⟨?_, ?_, ?_, ?_, ?_⟩
  · simp [initState, incFoundWeight]
  · intro i c hpc
    rcases hpc with h | h <;> cases h
  · intro h
    cases h
  · simp [initState, pendingWeight]
  · intro i h
    cases h

/-- Every step of every worker preserves the invariant. -/
theorem inv_step {m : VanityMatcher} {target n : Nat} {i : Fin n}
    {s s' : SearchState n} (hstep : Step m target n i s s')
    (hinv : Inv target n s) : Inv target n s' := by
  obtain ⟨hres, hobs, hft, hatt, hdf⟩ := hinv
  cases hstep with
  | loopExit h hf =>
    have hw1 := sum_update_pc incFoundWeight s.pcs i .done
    have hw2 := sum_update_pc pendingWeight s.pcs i .done
    rw [h] at hw1 hw2
    refine ⟨by dsimp only; simp only [incFoundWeight, pendingWeight] at hw1 hw2 hres hatt ⊢; omega, ?_, hft, by dsimp only; simp only [incFoundWeight, pendingWeight] at hw1 hw2 hres hatt ⊢; omega, ?_⟩
    · exact obs_update hobs le_rfl (by rintro c (hq | hq) <;> cases hq)
    · exact done_update hdf id (fun _ => hf)
  | loopGen kp h hf =>
    have hw1 := sum_update_pc incFoundWeight s.pcs i (.incAttempts kp)
    have hw2 := sum_update_pc pendingWeight s.pcs i (.incAttempts kp)
    rw [h] at hw1 hw2
    refine ⟨by dsimp only; simp only [incFoundWeight, pendingWeight] at hw1 hw2 hres hatt ⊢; omega, ?_, hft, by dsimp only; simp only [incFoundWeight, pendingWeight] at hw1 hw2 hres hatt ⊢; omega, ?_⟩
    · exact obs_update hobs le_rfl (by rintro c (hq | hq) <;> cases hq)
    · exact done_update hdf id (by intro hq; cases hq)
  | stepIncAttempts kp h =>
    have hw1 := sum_update_pc incFoundWeight s.pcs i (.testMatch kp)
    have hw2 := sum_update_pc pendingWeight s.pcs i (.testMatch kp)
    rw [h] at hw1 hw2
    refine ⟨by dsimp only; simp only [incFoundWeight, pendingWeight] at hw1 hw2 hres hatt ⊢; omega, ?_, hft, by dsimp only; simp only [incFoundWeight, pendingWeight] at hw1 hw2 hres hatt ⊢; omega, ?_⟩
    · exact obs_update hobs le_rfl (by rintro c (hq | hq) <;> cases hq)
    · exact done_update hdf id (by intro hq; cases hq)
  | matchYes kp h hm =>
    have hw1 := sum_update_pc incFoundWeight s.pcs i (.acquireLock kp)
    have hw2 := sum_update_pc pendingWeight s.pcs i (.acquireLock kp)
    rw [h] at hw1 hw2
    refine ⟨by dsimp only; simp only [incFoundWeight, pendingWeight] at hw1 hw2 hres hatt ⊢; omega, ?_, hft, by dsimp only; simp only [incFoundWeight, pendingWeight] at hw1 hw2 hres hatt ⊢; omega, ?_⟩
    · exact obs_update hobs le_rfl (by rintro c (hq | hq) <;> cases hq)
    · exact done_update hdf id (by intro hq; cases hq)
  | matchNo kp h hm =>
    have hw1 := sum_update_pc incFoundWeight s.pcs i .loopHead
    have hw2 := sum_update_pc pendingWeight s.pcs i .loopHead
    rw [h] at hw1 hw2
    refine ⟨by dsimp only; simp only [incFoundWeight, pendingWeight] at hw1 hw2 hres hatt ⊢; omega, ?_, hft, by dsimp only; simp only [incFoundWeight, pendingWeight] at hw1 hw2 hres hatt ⊢; omega, ?_⟩
    · exact obs_update hobs le_rfl (by rintro c (hq | hq) <;> cases hq)
    · exact done_update hdf id (by intro hq; cases hq)
  | acquire kp h hl =>
    have hw1 := sum_update_pc incFoundWeight s.pcs i (.pushResult kp)
    have hw2 := sum_update_pc pendingWeight s.pcs i (.pushResult kp)
    rw [h] at hw1 hw2
    refine ⟨by dsimp only; simp only [incFoundWeight, pendingWeight] at hw1 hw2 hres hatt ⊢; omega, ?_, hft, by dsimp only; simp only [incFoundWeight, pendingWeight] at hw1 hw2 hres hatt ⊢; omega, ?_⟩
    · exact obs_update hobs le_rfl (by rintro c (hq | hq) <;> cases hq)
    · exact done_update hdf id (by intro hq; cases hq)
  | push kp h =>
    have hw1 := sum_update_pc incFoundWeight s.pcs i .incFound
    have hw2 := sum_update_pc pendingWeight s.pcs i .incFound
    rw [h] at hw1 hw2
    refine ⟨?_, ?_, hft, by dsimp only; simp only [incFoundWeight, pendingWeight] at hw1 hw2 hres hatt ⊢; omega, ?_⟩
    · dsimp only
      rw [List.length_append]
      simp only [List.length_cons, List.length_nil,
        incFoundWeight, pendingWeight] at hw1 hw2 hres hatt ⊢
      omega
    · exact obs_update hobs le_rfl (by rintro c (hq | hq) <;> cases hq)
    · exact done_update hdf id (by intro hq; cases hq)
  | incFoundStep h =>
    have hw1 := sum_update_pc incFoundWeight s.pcs i (.unlockStep (s.found_count + 1))
    have hw2 := sum_update_pc pendingWeight s.pcs i (.unlockStep (s.found_count + 1))
    rw [h] at hw1 hw2
    refine ⟨by dsimp only; simp only [incFoundWeight, pendingWeight] at hw1 hw2 hres hatt ⊢; omega, ?_, ?_, by dsimp only; simp only [incFoundWeight, pendingWeight] at hw1 hw2 hres hatt ⊢; omega, ?_⟩
    · refine obs_update hobs (Nat.le_succ _) ?_
      rintro c (hc | hc)
      · cases hc
        exact le_rfl
      · cases hc
    · intro hfd
      exact le_trans (hft hfd) (Nat.le_succ _)
    · exact done_update hdf id (by intro hq; cases hq)
  | unlock c h =>
    have hw1 := sum_update_pc incFoundWeight s.pcs i (.checkThreshold c)
    have hw2 := sum_update_pc pendingWeight s.pcs i (.checkThreshold c)
    rw [h] at hw1 hw2
    refine ⟨by dsimp only; simp only [incFoundWeight, pendingWeight] at hw1 hw2 hres hatt ⊢; omega, ?_, hft, by dsimp only; simp only [incFoundWeight, pendingWeight] at hw1 hw2 hres hatt ⊢; omega, ?_⟩
    · refine obs_update hobs le_rfl ?_
      rintro c' (hc | hc)
      · cases hc
      · cases hc
        exact hobs i c (Or.inl h)
    · exact done_update hdf id (by intro hq; cases hq)
  | thresholdHit c h hc =>
    have hw1 := sum_update_pc incFoundWeight s.pcs i .loopHead
    have hw2 := sum_update_pc pendingWeight s.pcs i .loopHead
    rw [h] at hw1 hw2
    refine ⟨by dsimp only; simp only [incFoundWeight, pendingWeight] at hw1 hw2 hres hatt ⊢; omega, ?_, ?_, by dsimp only; simp only [incFoundWeight, pendingWeight] at hw1 hw2 hres hatt ⊢; omega, ?_⟩
    · exact obs_update hobs le_rfl (by rintro c' (hq | hq) <;> cases hq)
    · intro _
      exact le_trans hc (hobs i c (Or.inr h))
    · exact done_update hdf (fun _ => rfl) (fun _ => rfl)
  | thresholdMiss c h hc =>
    have hw1 := sum_update_pc incFoundWeight s.pcs i .loopHead
    have hw2 := sum_update_pc pendingWeight s.pcs i .loopHead
    rw [h] at hw1 hw2
    refine ⟨by dsimp only; simp only [incFoundWeight, pendingWeight] at hw1 hw2 hres hatt ⊢; omega, ?_, hft, by dsimp only; simp only [incFoundWeight, pendingWeight] at hw1 hw2 hres hatt ⊢; omega, ?_⟩
    · exact obs_update hobs le_rfl (by rintro c' (hq | hq) <;> cases hq)
    · exact done_update hdf id (by intro hq; cases hq)

/-- The invariant holds in every reachable state. -/
theorem inv_reachable (m : VanityMatcher) (target n : Nat)
    (s : SearchState n) (h : Reachable m target n s) : Inv target n s := by
  unfold Reachable at h
  induction h with
  | refl => exact inv_init target n
  | tail hab hbc ih =>
    obtain ⟨i, hstep⟩ := hbc
    exact inv_step hstep ih

/-- A single step never decreases attempts or found_count and never
resets the terminated flag. -/
theorem step_mono {m : VanityMatcher} {target n : Nat} {i : Fin n}
    {s s' : SearchState n} (h : Step m target n i s s') :
    s.attempts ≤ s'.attempts ∧ s.found_count ≤ s'.found_count ∧
      (s.found = true → s'.found = true) := by
  cases h <;>
    refine ⟨by dsimp only; omega, by dsimp only; omega, ?_⟩ <;>
    first
    | exact fun hf => hf
    | exact fun _ => rfl

example : VanityMatcher.new (some ['a', 'b']) none false =
    .ok ⟨some ['a', 'b'], none, false⟩ := by decide

example : VanityMatcher.new (some ['L']) none false =
    .ok ⟨some ['l'], none, false⟩ := by decide

example : VanityMatcher.new (some ['l']) none false =
    .error (illegalPrefixMsg 'l') := by decide

example : VanityMatcher.new none none true = .error noPatternMsg := by decide

example : VanityMatcher.new (some []) (some ['0']) false =
    .error emptyPrefixMsg := by decide

example : VanityMatcher.matches ⟨some ['a', 'b'], none, false⟩
    ['A', 'B', 'x'] = true := by decide

example : VanityMatcher.matches ⟨some ['A', 'B'], none, true⟩
    ['a', 'b', 'X'] = false := by decide

/-- C1: for every successfully constructed pattern and every candidate
identifier, matches returns true if and only if (the prefix is absent, or
the candidate starts with the prefix under the pattern case rule) and
(the suffix is absent, or the candidate ends with the suffix under the
pattern case rule); an absent anchor vacuously satisfies its check and
the two checks are AND-combined. -/
theorem C1_matches_iff (pre suf : Option Str) (cs : Bool) (m : VanityMatcher)
    (I : Str) (h : VanityMatcher.new pre suf cs = .ok m) :
    (m.matches I = true ↔
      ((pre = none ∨ ∃ p, pre = some p ∧
          startsWith (if cs then I else toLowercase I)
            (if cs then p else toLowercase p) = true) ∧
       (suf = none ∨ ∃ sfx, suf = some sfx ∧
          endsWith (if cs then I else toLowercase I)
            (if cs then sfx else toLowercase sfx) = true))) := by
  obtain ⟨-, hp, hs, hcs⟩ := new_ok_inv pre suf cs m h
  rw [matches_eq, hcs]
  rcases validateAnchor_ok_inv _ _ _ _ _ hp with ⟨rfl, hmp⟩ | ⟨p, rfl, -, -, hmp⟩ <;>
    rcases validateAnchor_ok_inv _ _ _ _ _ hs with ⟨rfl, hms⟩ | ⟨sfx, rfl, -, -, hms⟩ <;>
      rw [hmp, hms] <;> simp

/-- Witness for C1 at a concrete constructed pattern and candidate. -/
theorem C1_matches_iff_witness :
    (VanityMatcher.matches ⟨some ['a'], none, false⟩ ['A', 'b'] = true ↔
      ((some ['a'] = (none : Option Str) ∨ ∃ p, (some ['a'] : Option Str) = some p ∧
          startsWith (if false then ['A', 'b'] else toLowercase ['A', 'b'])
            (if false then p else toLowercase p) = true) ∧
       ((none : Option Str) = none ∨ ∃ sfx, (none : Option Str) = some sfx ∧
          endsWith (if false then ['A', 'b'] else toLowercase ['A', 'b'])
            (if false then sfx else toLowercase sfx) = true))) :=
  C1_matches_iff (some ['a']) none false ⟨some ['a'], none, false⟩ ['A', 'b']
    (by decide)

/-- C2 counterexample: at prefix some "" and suffix some "0" the suffix
holds the illegal character 0, yet construction fails with the
EmptyPattern-style prefix message, not an IllegalCharacter-style error,
because the prefix is validated first; so the claim as stated (an
IllegalCharacter-style failure whenever a supplied anchor holds an
illegal character) is false at this input. -/
theorem C2_counterexample :
    ('0' ∈ (['0'] : Str) ∧ base58Chars.contains '0' = false) ∧
    VanityMatcher.new (some []) (some ['0']) false = .error emptyPrefixMsg ∧
    isIllegalCharErrMsg emptyPrefixMsg = false := by decide

/-- C2 amended: construction fails with the NoPatternSpecified-style
error when both anchors are absent; otherwise the prefix is validated
before the suffix and, within one anchor, emptiness before characters, so
the reported error is the first failing check in that order (EmptyPattern
style for an emptiness check, IllegalCharacter style carrying the first
illegal character for a character check); construction succeeds exactly
when at least one anchor is supplied and every supplied anchor passes. -/
theorem C2_validation_errors (pre suf : Option Str) (cs : Bool) :
    (pre = none → suf = none →
      VanityMatcher.new pre suf cs = .error noPatternMsg) ∧
    (∀ p, pre = some p → p = [] →
      VanityMatcher.new pre suf cs = .error emptyPrefixMsg) ∧
    (∀ p c, pre = some p →
      p.find? (fun c => !(base58Chars.contains c)) = some c →
      VanityMatcher.new pre suf cs = .error (illegalPrefixMsg c)) ∧
    (∀ sfx, (validateAnchor emptyPrefixMsg illegalPrefixMsg cs pre).isOk = true →
      suf = some sfx → sfx = [] →
      VanityMatcher.new pre suf cs = .error emptySuffixMsg) ∧
    (∀ sfx c, (validateAnchor emptyPrefixMsg illegalPrefixMsg cs pre).isOk = true →
      suf = some sfx →
      sfx.find? (fun c => !(base58Chars.contains c)) = some c →
      VanityMatcher.new pre suf cs = .error (illegalSuffixMsg c)) ∧
    (¬(pre = none ∧ suf = none) →
      (validateAnchor emptyPrefixMsg illegalPrefixMsg cs pre).isOk = true →
      (validateAnchor emptySuffixMsg illegalSuffixMsg cs suf).isOk = true →
      ∃ m, VanityMatcher.new pre suf cs = .ok m) := by
  refine ⟨?_, ?_, ?_, ?_, ?_, ?_⟩
  · rintro rfl rfl
    rfl
  · rintro p rfl rfl
    rw [new_guard_false (some []) suf cs rfl, validateAnchor_empty]
  · rintro p c rfl hf
    rw [new_guard_false (some p) suf cs rfl, validateAnchor_illegal _ _ _ _ _ hf]
  · rintro sfx hok rfl rfl
    cases hvp : validateAnchor emptyPrefixMsg illegalPrefixMsg cs pre with
    | error e => rw [hvp] at hok; cases hok
    | ok vp =>
      rw [new_guard_false pre (some []) cs (by simp), hvp, validateAnchor_empty]
  · rintro sfx c hok rfl hf
    cases hvp : validateAnchor emptyPrefixMsg illegalPrefixMsg cs pre with
    | error e => rw [hvp] at hok; cases hok
    | ok vp =>
      rw [new_guard_false pre (some sfx) cs (by simp), hvp,
        validateAnchor_illegal _ _ _ _ _ hf]
  · intro hne hok1 hok2
    cases hvp : validateAnchor emptyPrefixMsg illegalPrefixMsg cs pre with
    | error e => rw [hvp] at hok1; cases hok1
    | ok vp =>
      cases hvs : validateAnchor emptySuffixMsg illegalSuffixMsg cs suf with
      | error e => rw [hvs] at hok2; cases hok2
      | ok vs => exact ⟨⟨vp, vs, cs⟩, new_ok_of pre suf cs vp vs hne hvp hvs⟩

/-- Witness for C2 (amended) at a concrete input: an empty suffix behind
a valid prefix reports the suffix emptiness error. -/
theorem C2_validation_errors_witness :
    VanityMatcher.new (some ['b']) (some []) true = .error emptySuffixMsg :=
  (C2_validation_errors (some ['b']) (some []) true).2.2.2.1 [] (by decide) rfl rfl

/-- C5: matching of a pattern constructed case-insensitively equals
folding both the raw pattern and the candidate to lower case and
comparing; matching of a pattern constructed case-sensitively performs
no folding at all; in particular the case-sensitive prefix AB does not
match abXYZ but does match ABXYZ. -/
theorem C5_case_rule :
    (∀ (pre suf : Option Str) (m : VanityMatcher) (I : Str),
      VanityMatcher.new pre suf false = .ok m →
      m.matches I = foldedSpecMatch pre suf I) ∧
    (∀ (pre suf : Option Str) (m : VanityMatcher) (I : Str),
      VanityMatcher.new pre suf true = .ok m →
      m.matches I = exactSpecMatch pre suf I) ∧
    (∀ m : VanityMatcher,
      VanityMatcher.new (some ['A', 'B']) none true = .ok m →
      m.matches ['a', 'b', 'X', 'Y', 'Z'] = false ∧
      m.matches ['A', 'B', 'X', 'Y', 'Z'] = true) := by
  refine ⟨?_, ?_, ?_⟩
  · intro pre suf m I h
    obtain ⟨-, hp, hs, hcs⟩ := new_ok_inv pre suf false m h
    rw [matches_eq, hcs]
    rcases validateAnchor_ok_inv _ _ _ _ _ hp with ⟨rfl, hmp⟩ | ⟨p, rfl, -, -, hmp⟩ <;>
      rcases validateAnchor_ok_inv _ _ _ _ _ hs with ⟨rfl, hms⟩ | ⟨sfx, rfl, -, -, hms⟩ <;>
        rw [hmp, hms] <;> simp [foldedSpecMatch]
  · intro pre suf m I h
    obtain ⟨-, hp, hs, hcs⟩ := new_ok_inv pre suf true m h
    rw [matches_eq, hcs]
    rcases validateAnchor_ok_inv _ _ _ _ _ hp with ⟨rfl, hmp⟩ | ⟨p, rfl, -, -, hmp⟩ <;>
      rcases validateAnchor_ok_inv _ _ _ _ _ hs with ⟨rfl, hms⟩ | ⟨sfx, rfl, -, -, hms⟩ <;>
        rw [hmp, hms] <;> simp [exactSpecMatch]
  · intro m h
    have he : VanityMatcher.new (some ['A', 'B']) none true =
        .ok (⟨some ['A', 'B'], none, true⟩ : VanityMatcher) := by decide
    rw [he] at h
    have hm : m = ⟨some ['A', 'B'], none, true⟩ := (Except.ok.inj h).symm
    subst hm
    exact ⟨by decide, by decide⟩

/-- Witness for C5 at a concrete constructed pattern and candidate. -/
theorem C5_case_rule_witness :
    VanityMatcher.matches ⟨some ['a'], none, false⟩ ['A', 'x'] =
      foldedSpecMatch (some ['A']) none ['A', 'x'] :=
  C5_case_rule.1 (some ['A']) none ⟨some ['a'], none, false⟩ ['A', 'x'] (by decide)

/-- C6 counterexample: the raw prefix L is legal (it is in the alphabet),
construction succeeds case-insensitively, but the stored, case-folded
anchor is l, which is outside the 58-symbol alphabet; so the claim that
the stored folded form also consists exclusively of legal characters is
false at this input. -/
theorem C6_counterexample :
    VanityMatcher.new (some ['L']) none false =
      .ok ⟨some ['l'], none, false⟩ ∧
    base58Chars.contains 'L' = true ∧
    base58Chars.contains 'l' = false := by decide

/-- C6 amended: every Pattern returned by the validating constructor has
at least one anchor present, each present anchor non-empty, and each
stored anchor is the case-normalisation (identity when case-sensitive,
lower-casing otherwise) of a raw string composed exclusively of legal
alphabet characters; when case-sensitive the stored anchors themselves
are therefore composed exclusively of legal characters, but after
lower-casing they need not be (L folds to the illegal l). -/
theorem C6_stored_invariant (pre suf : Option Str) (cs : Bool)
    (m : VanityMatcher) (h : VanityMatcher.new pre suf cs = .ok m) :
    (¬(m.prefix_pat = none ∧ m.suffix_pat = none)) ∧
    m.case_sensitive = cs ∧
    (∀ p, m.prefix_pat = some p → p ≠ [] ∧
      ∃ p0, (∀ c ∈ p0, base58Chars.contains c = true) ∧
        p = (if cs then p0 else toLowercase p0)) ∧
    (∀ sfx, m.suffix_pat = some sfx → sfx ≠ [] ∧
      ∃ s0, (∀ c ∈ s0, base58Chars.contains c = true) ∧
        sfx = (if cs then s0 else toLowercase s0)) ∧
    (cs = true →
      (∀ p, m.prefix_pat = some p → ∀ c ∈ p, base58Chars.contains c = true) ∧
      (∀ sfx, m.suffix_pat = some sfx →
        ∀ c ∈ sfx, base58Chars.contains c = true)) := by
  obtain ⟨hne, hp, hs, hcs⟩ := new_ok_inv pre suf cs m h
  have hpfact := validateAnchor_ok_inv _ _ _ _ _ hp
  have hsfact := validateAnchor_ok_inv _ _ _ _ _ hs
  have h3 : ∀ p, m.prefix_pat = some p → p ≠ [] ∧
      ∃ p0, (∀ c ∈ p0, base58Chars.contains c = true) ∧
        p = (if cs then p0 else toLowercase p0) := by
    intro p hpp
    rcases hpfact with ⟨-, hmp⟩ | ⟨p0, -, hpne, hpall, hmp⟩
    · rw [hmp] at hpp; cases hpp
    · rw [hmp] at hpp
      have hpp' := Option.some.inj hpp
      refine ⟨?_, p0, hpall, hpp'.symm⟩
      rw [← hpp']
      cases cs
      · simp only [Bool.false_eq_true, if_false]
        intro hq
        exact hpne (by simpa [toLowercase] using hq)
      · simpa using hpne
  have h4 : ∀ sfx, m.suffix_pat = some sfx → sfx ≠ [] ∧
      ∃ s0, (∀ c ∈ s0, base58Chars.contains c = true) ∧
        sfx = (if cs then s0 else toLowercase s0) := by
    intro sfx hss
    rcases hsfact with ⟨-, hms⟩ | ⟨s0, -, hsne, hsall, hms⟩
    · rw [hms] at hss; cases hss
    · rw [hms] at hss
      have hss' := Option.some.inj hss
      refine ⟨?_, s0, hsall, hss'.symm⟩
      rw [← hss']
      cases cs
      · simp only [Bool.false_eq_true, if_false]
        intro hq
        exact hsne (by simpa [toLowercase] using hq)
      · simpa using hsne
  refine ⟨?_, hcs, h3, h4, ?_⟩
  · rintro ⟨h1, h2⟩
    rcases hpfact with ⟨hpn, hmp⟩ | ⟨p0, hpe, -, -, hmp⟩
    · rcases hsfact with ⟨hsn, hms⟩ | ⟨s0, hse, -, -, hms⟩
      · exact hne ⟨hpn, hsn⟩
      · rw [hms] at h2; cases h2
    · rw [hmp] at h1; cases h1
  · rintro rfl
    constructor
    · intro p hpp
      obtain ⟨-, p0, hall, hpe⟩ := h3 p hpp
      simp only [if_true] at hpe
      subst hpe
      exact hall
    · intro sfx hss
      obtain ⟨-, s0, hall, hse⟩ := h4 sfx hss
      simp only [if_true] at hse
      subst hse
      exact hall

/-- Witness for C6 (amended) at a concrete constructed pattern. -/
theorem C6_stored_invariant_witness :
    (¬((⟨some ['a', 'b'], none, false⟩ : VanityMatcher).prefix_pat = none ∧
       (⟨some ['a', 'b'], none, false⟩ : VanityMatcher).suffix_pat = none)) ∧
    (⟨some ['a', 'b'], none, false⟩ : VanityMatcher).case_sensitive = false ∧
    (∀ p, (⟨some ['a', 'b'], none, false⟩ : VanityMatcher).prefix_pat = some p →
      p ≠ [] ∧ ∃ p0, (∀ c ∈ p0, base58Chars.contains c = true) ∧
        p = (if false then p0 else toLowercase p0)) ∧
    (∀ sfx, (⟨some ['a', 'b'], none, false⟩ : VanityMatcher).suffix_pat = some sfx →
      sfx ≠ [] ∧ ∃ s0, (∀ c ∈ s0, base58Chars.contains c = true) ∧
        sfx = (if false then s0 else toLowercase s0)) ∧
    (false = true →
      (∀ p, (⟨some ['a', 'b'], none, false⟩ : VanityMatcher).prefix_pat = some p →
        ∀ c ∈ p, base58Chars.contains c = true) ∧
      (∀ sfx, (⟨some ['a', 'b'], none, false⟩ : VanityMatcher).suffix_pat = some sfx →
        ∀ c ∈ sfx, base58Chars.contains c = true)) :=
  C6_stored_invariant (some ['a', 'B']) none false ⟨some ['a', 'b'], none, false⟩
    (by decide)

/-- C9 counterexample: the pattern prefix L validates and is stored
case-folded as l, but feeding the stored anchors back into the
constructor with the same flag fails with an IllegalCharacter-style
error instead of returning the same Pattern; so validation is not
idempotent on its output. -/
theorem C9_counterexample :
    VanityMatcher.new (some ['L']) none false =
      .ok ⟨some ['l'], none, false⟩ ∧
    VanityMatcher.new (some ['l']) none false =
      .error (illegalPrefixMsg 'l') ∧
    VanityMatcher.new (some ['l']) none false ≠
      .ok ⟨some ['l'], none, false⟩ := by decide

/-- Revalidating an anchor that a validation stored succeeds and returns
it unchanged, provided every stored character is in the alphabet. -/
theorem revalidate_anchor (em : Str) (im : Char → Str) (cs : Bool)
    (a r : Option Str) (hv : validateAnchor em im cs a = .ok r)
    (hall : ∀ p, r = some p → ∀ c ∈ p, base58Chars.contains c = true) :
    validateAnchor em im cs r = .ok r := by
  rcases validateAnchor_ok_inv _ _ _ _ _ hv with ⟨-, rfl⟩ | ⟨p0, -, hpne, hp0all, rfl⟩
  · exact validateAnchor_none em im cs
  · have hqne : (if cs then p0 else toLowercase p0) ≠ [] := by
      cases cs
      · simp only [Bool.false_eq_true, if_false]
        intro hq
        exact hpne (by simpa [toLowercase] using hq)
      · simpa using hpne
    have hqall : ∀ c ∈ (if cs then p0 else toLowercase p0),
        base58Chars.contains c = true := hall _ rfl
    rw [validateAnchor_legal em im cs _ hqne hqall]
    have hfix : (if cs then (if cs then p0 else toLowercase p0)
        else toLowercase (if cs then p0 else toLowercase p0)) =
        (if cs then p0 else toLowercase p0) := by
      cases cs
      · simp only [Bool.false_eq_true, if_false]
        exact toLowercase_idem_of_legal p0 hp0all
      · simp
    rw [hfix]

/-- C9 amended: for every Pattern produced by the constructor, feeding
its stored prefix and suffix back in with the same case flag succeeds
and yields the identical Pattern, provided the stored anchors consist of
alphabet characters — always true when case-sensitive, and true
case-insensitively exactly when folding introduced no illegal character
(the only folding that can is L to l, as the counterexample shows). -/
theorem C9_idempotent_on_legal (pre suf : Option Str) (cs : Bool)
    (m : VanityMatcher) (h : VanityMatcher.new pre suf cs = .ok m)
    (hp : ∀ p, m.prefix_pat = some p → ∀ c ∈ p, base58Chars.contains c = true)
    (hs : ∀ sfx, m.suffix_pat = some sfx →
      ∀ c ∈ sfx, base58Chars.contains c = true) :
    VanityMatcher.new m.prefix_pat m.suffix_pat cs = .ok m := by
  obtain ⟨hne, hvp, hvs, hcs⟩ := new_ok_inv pre suf cs m h
  have hrp := revalidate_anchor _ _ _ _ _ hvp hp
  have hrs := revalidate_anchor _ _ _ _ _ hvs hs
  have hne' : ¬(m.prefix_pat = none ∧ m.suffix_pat = none) := by
    rintro ⟨h1, h2⟩
    rcases validateAnchor_ok_inv _ _ _ _ _ hvp with ⟨hpn, -⟩ | ⟨p0, hpe, -, -, hmp⟩
    · rcases validateAnchor_ok_inv _ _ _ _ _ hvs with ⟨hsn, -⟩ | ⟨s0, hse, -, -, hms⟩
      · exact hne ⟨hpn, hsn⟩
      · rw [hms] at h2; cases h2
    · rw [hmp] at h1; cases h1
  have := new_ok_of m.prefix_pat m.suffix_pat cs m.prefix_pat m.suffix_pat
    hne' hrp hrs
  rw [this]
  obtain ⟨mp, ms, mcs⟩ := m
  simp only at hcs
  rw [hcs]

/-- Witness for C9 (amended) at a concrete constructed pattern. -/
theorem C9_idempotent_on_legal_witness :
    VanityMatcher.new
      ((⟨some ['a', 'b'], none, false⟩ : VanityMatcher).prefix_pat)
      ((⟨some ['a', 'b'], none, false⟩ : VanityMatcher).suffix_pat) false =
      .ok ⟨some ['a', 'b'], none, false⟩ :=
  C9_idempotent_on_legal (some ['A', 'b']) none false
    ⟨some ['a', 'b'], none, false⟩ (by decide)
    (by
      intro p hpq
      have hq := Option.some.inj hpq
      rw [← hq]
      decide)
    (by intro sfx hsq; cases hsq)

/-- Transport of a step along an equality of target states. -/
theorem step_of_eq {m : VanityMatcher} {target n : Nat} {i : Fin n}
    {s s' s'' : SearchState n} (hstep : Step m target n i s s'')
    (he : s' = s'') : Step m target n i s s' := he ▸ hstep

/-- The final overshoot state is reachable in a two-worker run with
target count one. -/
theorem overshoot_reach : Reachable overshootMatcher 1 2 overshootFinal := by
  unfold Reachable
  have h1 : Relation.ReflTransGen (StepAny overshootMatcher 1 2) (initState 2) tr1 :=
    Relation.ReflTransGen.single
      ⟨0, step_of_eq (Step.loopGen (initState 2) okp (by decide) (by decide)) (by decide)⟩
  have h2 : Relation.ReflTransGen (StepAny overshootMatcher 1 2) (initState 2) tr2 :=
    h1.tail ⟨0, step_of_eq (Step.stepIncAttempts tr1 okp (by decide)) (by decide)⟩
  have h3 : Relation.ReflTransGen (StepAny overshootMatcher 1 2) (initState 2) tr3 :=
    h2.tail ⟨0, step_of_eq (Step.matchYes tr2 okp (by decide) (by decide)) (by decide)⟩
  have h4 : Relation.ReflTransGen (StepAny overshootMatcher 1 2) (initState 2) tr4 :=
    h3.tail ⟨1, step_of_eq (Step.loopGen tr3 okp (by decide) (by decide)) (by decide)⟩
  have h5 : Relation.ReflTransGen (StepAny overshootMatcher 1 2) (initState 2) tr5 :=
    h4.tail ⟨1, step_of_eq (Step.stepIncAttempts tr4 okp (by decide)) (by decide)⟩
  have h6 : Relation.ReflTransGen (StepAny overshootMatcher 1 2) (initState 2) tr6 :=
    h5.tail ⟨1, step_of_eq (Step.matchYes tr5 okp (by decide) (by decide)) (by decide)⟩
  have h7 : Relation.ReflTransGen (StepAny overshootMatcher 1 2) (initState 2) tr7 :=
    h6.tail ⟨0, step_of_eq (Step.acquire tr6 okp (by decide) (by decide)) (by decide)⟩
  have h8 : Relation.ReflTransGen (StepAny overshootMatcher 1 2) (initState 2) tr8 :=
    h7.tail ⟨0, step_of_eq (Step.push tr7 okp (by decide)) (by decide)⟩
  have h9 : Relation.ReflTransGen (StepAny overshootMatcher 1 2) (initState 2) tr9 :=
    h8.tail ⟨0, step_of_eq (Step.incFoundStep tr8 (by decide)) (by decide)⟩
  have h10 : Relation.ReflTransGen (StepAny overshootMatcher 1 2) (initState 2) tr10 :=
    h9.tail ⟨0, step_of_eq (Step.unlock tr9 1 (by decide)) (by decide)⟩
  have h11 : Relation.ReflTransGen (StepAny overshootMatcher 1 2) (initState 2) tr11 :=
    h10.tail ⟨0, step_of_eq (Step.thresholdHit tr10 1 (by decide) (by decide)) (by decide)⟩
  have h12 : Relation.ReflTransGen (StepAny overshootMatcher 1 2) (initState 2) tr12 :=
    h11.tail ⟨1, step_of_eq (Step.acquire tr11 okp (by decide) (by decide)) (by decide)⟩
  have h13 : Relation.ReflTransGen (StepAny overshootMatcher 1 2) (initState 2) tr13 :=
    h12.tail ⟨1, step_of_eq (Step.push tr12 okp (by decide)) (by decide)⟩
  have h14 : Relation.ReflTransGen (StepAny overshootMatcher 1 2) (initState 2) tr14 :=
    h13.tail ⟨1, step_of_eq (Step.incFoundStep tr13 (by decide)) (by decide)⟩
  have h15 : Relation.ReflTransGen (StepAny overshootMatcher 1 2) (initState 2) tr15 :=
    h14.tail ⟨1, step_of_eq (Step.unlock tr14 2 (by decide)) (by decide)⟩
  have h16 : Relation.ReflTransGen (StepAny overshootMatcher 1 2) (initState 2) tr16 :=
    h15.tail ⟨1, step_of_eq (Step.thresholdHit tr15 2 (by decide) (by decide)) (by decide)⟩
  have h17 : Relation.ReflTransGen (StepAny overshootMatcher 1 2) (initState 2) tr17 :=
    h16.tail ⟨0, step_of_eq (Step.loopExit tr16 (by decide) (by decide)) (by decide)⟩
  exact h17.tail ⟨1, step_of_eq (Step.loopExit tr17 (by decide) (by decide)) (by decide)⟩

/-- C4: in every reachable state in which no worker is inside the
results-lock protected section, found_count equals the length of the
results sequence; since this holds after arbitrary interleavings, every
worker operation preserves the equality across its protected section. -/
theorem C4_count_eq_results (m : VanityMatcher) (target n : Nat)
    (s : SearchState n) (h : Reachable m target n s)
    (hnc : ∀ i, inCritical (s.pcs i) = false) :
    s.found_count = s.results.length := by
  have hinv := inv_reachable m target n s h
  have hz : ∑ j, incFoundWeight (s.pcs j) = 0 := by
    refine Finset.sum_eq_zero ?_
    intro j _
    have hj := hnc j
    cases hpc : s.pcs j <;> first | rfl | (rw [hpc] at hj; cases hj)
  rw [hinv.results_len, hz]
  omega

/-- Witness for C4 at the final state of the concrete overshoot run. -/
theorem C4_count_eq_results_witness :
    overshootFinal.found_count = overshootFinal.results.length :=
  C4_count_eq_results overshootMatcher 1 2 overshootFinal overshoot_reach
    (by decide)

/-- C10: in every reachable state — during the run and in particular at
completion — the attempts counter is at least found_count, because every
worker counts an attempt for each candidate before testing it and at most
one found_count increment follows each attempt. -/
theorem C10_attempts_ge_found (m : VanityMatcher) (target n : Nat)
    (s : SearchState n) (h : Reachable m target n s) :
    s.found_count ≤ s.attempts := by
  have hinv := inv_reachable m target n s h
  have := hinv.attempts_ge
  omega

/-- Witness for C10 at the final state of the concrete overshoot run. -/
theorem C10_attempts_ge_found_witness :
    overshootFinal.found_count ≤ overshootFinal.attempts :=
  C10_attempts_ge_found overshootMatcher 1 2 overshootFinal overshoot_reach

/-- C7: along any run segment the attempts counter and the found_count
counter are non-decreasing, and the terminated flag never returns from
true to false, so it transitions at most once, from false to true. -/
theorem C7_monotonic (m : VanityMatcher) (target n : Nat)
    (s s' : SearchState n)
    (h : Relation.ReflTransGen (StepAny m target n) s s') :
    s.attempts ≤ s'.attempts ∧ s.found_count ≤ s'.found_count ∧
      (s.found = true → s'.found = true) := by
  induction h with
  | refl => exact ⟨le_rfl, le_rfl, fun hf => hf⟩
  | tail hab hbc ih =>
    obtain ⟨i, hstep⟩ := hbc
    obtain ⟨ha, hb, hc⟩ := step_mono hstep
    exact ⟨le_trans ih.1 ha, le_trans ih.2.1 hb, fun hf => hc (ih.2.2 hf)⟩

/-- Witness for C7 on a concrete one-step run segment. -/
theorem C7_monotonic_witness :
    (initState 2).attempts ≤ tr1.attempts ∧
    (initState 2).found_count ≤ tr1.found_count ∧
    ((initState 2).found = true → tr1.found = true) :=
  C7_monotonic overshootMatcher 1 2 (initState 2) tr1
    (Relation.ReflTransGen.single
      ⟨0, step_of_eq (Step.loopGen (initState 2) okp (by decide) (by decide))
        (by decide)⟩)

/-- C3: the terminated flag is true only when some worker has observed a
post-increment found_count of at least the target k, so every reachable
state of a completed run (all workers done) holds at least k results;
moreover, the final count may strictly exceed k, as a concrete completed
two-worker run with target 1 and two collected results shows, so callers
may rely only on at-least-k. -/
theorem C3_at_least_target :
    (∀ (m : VanityMatcher) (k n : Nat), 1 ≤ k → ∀ s : SearchState n,
      Reachable m k n s →
      (s.found = true → k ≤ s.found_count) ∧
      (0 < n → (∀ i, s.pcs i = .done) → k ≤ s.results.length)) ∧
    (∃ s : SearchState 2, Reachable overshootMatcher 1 2 s ∧
      (∀ i, s.pcs i = .done) ∧ 1 < s.results.length) := by
  constructor
  · intro m k n hk s h
    have hinv := inv_reachable m k n s h
    constructor
    · exact hinv.found_target
    · intro hn hdone
      have hfound : s.found = true := hinv.done_found ⟨0, hn⟩ (hdone ⟨0, hn⟩)
      have h1 := hinv.found_target hfound
      have h2 := hinv.results_len
      omega
  · exact ⟨overshootFinal, overshoot_reach, by decide, by decide⟩

/-- Witness for C3 at the final state of the concrete overshoot run. -/
theorem C3_at_least_target_witness :
    (overshootFinal.found = true → 1 ≤ overshootFinal.found_count) ∧
    (0 < 2 → (∀ i, overshootFinal.pcs i = .done) →
      1 ≤ overshootFinal.results.length) :=
  C3_at_least_target.1 overshootMatcher 1 2 (by decide) overshootFinal
    overshoot_reach

/-- Inversion: from the lock-acquisition program point the only step of
worker i is a successful results.lock(), possible only with the lock
free. -/
theorem step_from_acquireLock {m : VanityMatcher} {target n : Nat}
    {i : Fin n} {s t : SearchState n} {kp : Keypair}
    (hpc : s.pcs i = .acquireLock kp) (h : Step m target n i s t) :
    s.lock = none ∧
    t = { s with
      lock := some i,
      pcs := Function.update s.pcs i (.pushResult kp) } := by
  cases h with
  | loopExit h2 hf => rw [hpc] at h2; cases h2
  | loopGen kp2 h2 hf => rw [hpc] at h2; cases h2
  | stepIncAttempts kp2 h2 => rw [hpc] at h2; cases h2
  | matchYes kp2 h2 hm => rw [hpc] at h2; cases h2
  | matchNo kp2 h2 hm => rw [hpc] at h2; cases h2
  | acquire kp2 h2 hl =>
    rw [hpc] at h2
    injection h2 with h3
    subst h3
    exact ⟨hl, rfl⟩
  | push kp2 h2 => rw [hpc] at h2; cases h2
  | incFoundStep h2 => rw [hpc] at h2; cases h2
  | unlock c h2 => rw [hpc] at h2; cases h2
  | thresholdHit c h2 hc => rw [hpc] at h2; cases h2
  | thresholdMiss c h2 hc => rw [hpc] at h2; cases h2

/-- Inversion: from the push program point the only step of worker i is
the append of its keypair to the results. -/
theorem step_from_pushResult {m : VanityMatcher} {target n : Nat}
    {i : Fin n} {s t : SearchState n} {kp : Keypair}
    (hpc : s.pcs i = .pushResult kp) (h : Step m target n i s t) :
    t = { s with
      results := s.results ++ [(kp, kp.pubkey)],
      pcs := Function.update s.pcs i .incFound } := by
  cases h with
  | loopExit h2 hf => rw [hpc] at h2; cases h2
  | loopGen kp2 h2 hf => rw [hpc] at h2; cases h2
  | stepIncAttempts kp2 h2 => rw [hpc] at h2; cases h2
  | matchYes kp2 h2 hm => rw [hpc] at h2; cases h2
  | matchNo kp2 h2 hm => rw [hpc] at h2; cases h2
  | acquire kp2 h2 hl => rw [hpc] at h2; cases h2
  | push kp2 h2 =>
    rw [hpc] at h2
    injection h2 with h3
    subst h3
    rfl
  | incFoundStep h2 => rw [hpc] at h2; cases h2
  | unlock c h2 => rw [hpc] at h2; cases h2
  | thresholdHit c h2 hc => rw [hpc] at h2; cases h2
  | thresholdMiss c h2 hc => rw [hpc] at h2; cases h2

/-- Inversion: from the counter program point the only step of worker i
is the found_count increment, recording its post-increment value. -/
theorem step_from_incFound {m : VanityMatcher} {target n : Nat}
    {i : Fin n} {s t : SearchState n}
    (hpc : s.pcs i = .incFound) (h : Step m target n i s t) :
    t = { s with
      found_count := s.found_count + 1,
      pcs := Function.update s.pcs i (.unlockStep (s.found_count + 1)) } := by
  cases h with
  | loopExit h2 hf => rw [hpc] at h2; cases h2
  | loopGen kp2 h2 hf => rw [hpc] at h2; cases h2
  | stepIncAttempts kp2 h2 => rw [hpc] at h2; cases h2
  | matchYes kp2 h2 hm => rw [hpc] at h2; cases h2
  | matchNo kp2 h2 hm => rw [hpc] at h2; cases h2
  | acquire kp2 h2 hl => rw [hpc] at h2; cases h2
  | push kp2 h2 => rw [hpc] at h2; cases h2
  | incFoundStep h2 => rfl
  | unlock c h2 => rw [hpc] at h2; cases h2
  | thresholdHit c h2 hc => rw [hpc] at h2; cases h2
  | thresholdMiss c h2 hc => rw [hpc] at h2; cases h2

/-- Inversion: from the unlock program point the only step of worker i is
the release of the results lock. -/
theorem step_from_unlockStep {m : VanityMatcher} {target n : Nat}
    {i : Fin n} {s t : SearchState n} {c : Nat}
    (hpc : s.pcs i = .unlockStep c) (h : Step m target n i s t) :
    t = { s with
      lock := none,
      pcs := Function.update s.pcs i (.checkThreshold c) } := by
  cases h with
  | loopExit h2 hf => rw [hpc] at h2; cases h2
  | loopGen kp2 h2 hf => rw [hpc] at h2; cases h2
  | stepIncAttempts kp2 h2 => rw [hpc] at h2; cases h2
  | matchYes kp2 h2 hm => rw [hpc] at h2; cases h2
  | matchNo kp2 h2 hm => rw [hpc] at h2; cases h2
  | acquire kp2 h2 hl => rw [hpc] at h2; cases h2
  | push kp2 h2 => rw [hpc] at h2; cases h2
  | incFoundStep h2 => rw [hpc] at h2; cases h2
  | unlock c2 h2 =>
    rw [hpc] at h2
    injection h2 with h3
    subst h3
    rfl
  | thresholdHit c2 h2 hc => rw [hpc] at h2; cases h2
  | thresholdMiss c2 h2 hc => rw [hpc] at h2; cases h2

/-- Inversion: from the threshold program point the only step of worker i
compares the recorded post-increment value with the target and sets the
terminated flag exactly when the value reaches it. -/
theorem step_from_checkThreshold {m : VanityMatcher} {target n : Nat}
    {i : Fin n} {s t : SearchState n} {c : Nat}
    (hpc : s.pcs i = .checkThreshold c) (h : Step m target n i s t) :
    (target ≤ c ∧ t = { s with
      found := true,
      pcs := Function.update s.pcs i .loopHead }) ∨
    (c < target ∧ t = { s with pcs := Function.update s.pcs i .loopHead }) := by
  cases h with
  | loopExit h2 hf => rw [hpc] at h2; cases h2
  | loopGen kp2 h2 hf => rw [hpc] at h2; cases h2
  | stepIncAttempts kp2 h2 => rw [hpc] at h2; cases h2
  | matchYes kp2 h2 hm => rw [hpc] at h2; cases h2
  | matchNo kp2 h2 hm => rw [hpc] at h2; cases h2
  | acquire kp2 h2 hl => rw [hpc] at h2; cases h2
  | push kp2 h2 => rw [hpc] at h2; cases h2
  | incFoundStep h2 => rw [hpc] at h2; cases h2
  | unlock c2 h2 => rw [hpc] at h2; cases h2
  | thresholdHit c2 h2 hc =>
    rw [hpc] at h2
    injection h2 with h3
    subst h3
    exact Or.inl ⟨hc, rfl⟩
  | thresholdMiss c2 h2 hc =>
    rw [hpc] at h2
    injection h2 with h3
    subst h3
    exact Or.inr ⟨hc, rfl⟩

/-- C8: from any state in which worker i holds a matching candidate at
the lock-acquisition point with the lock free, the worker can perform
exactly the five-step report sequence — acquire, append, increment,
release, threshold check — landing in reportSteps; the landed state,
projected to the report view, equals the reference sequence of the
specification (terminated set if and only if the post-increment value
reaches the target), the worker is back at the loop head, attempts and
the lock are restored, and any five consecutive solo steps of worker i
from that state end in exactly that state. -/
theorem C8_report_refinement (n target : Nat) (m : VanityMatcher)
    (i : Fin n) (kp : Keypair) (s : SearchState n)
    (hpc : s.pcs i = .acquireLock kp) (hlock : s.lock = none) :
    (∃ s1 s2 s3 s4, Step m target n i s s1 ∧ Step m target n i s1 s2 ∧
      Step m target n i s2 s3 ∧ Step m target n i s3 s4 ∧
      Step m target n i s4 (reportSteps target i kp s)) ∧
    SearchState.view (reportSteps target i kp s) =
      specReportSequence target (SearchState.view s) kp ∧
    (reportSteps target i kp s).pcs = Function.update s.pcs i .loopHead ∧
    (reportSteps target i kp s).attempts = s.attempts ∧
    (reportSteps target i kp s).lock = none ∧
    (∀ t1 t2 t3 t4 t5, Step m target n i s t1 → Step m target n i t1 t2 →
      Step m target n i t2 t3 → Step m target n i t3 t4 →
      Step m target n i t4 t5 → t5 = reportSteps target i kp s) := by
  refine ⟨?_, rfl, rfl, rfl, rfl, ?_⟩
  · refine ⟨_, _, _, _,
      Step.acquire s kp hpc hlock,
      Step.push _ kp (by simp),
      Step.incFoundStep _ (by simp),
      Step.unlock _ (s.found_count + 1) (by simp),
      ?_⟩
    by_cases hthr : target ≤ s.found_count + 1
    · refine step_of_eq
        (Step.thresholdHit _ (s.found_count + 1) (by simp) hthr) ?_
      simp only [reportSteps]
      rw [if_pos hthr]
      simp [SearchState.mk.injEq, Function.update_idem]
    · refine step_of_eq
        (Step.thresholdMiss _ (s.found_count + 1) (by simp)
          (Nat.lt_of_not_le hthr)) ?_
      simp only [reportSteps]
      rw [if_neg hthr]
      simp [SearchState.mk.injEq, Function.update_idem]
  · intro t1 t2 t3 t4 t5 h1 h2 h3 h4 h5
    obtain ⟨-, rfl⟩ := step_from_acquireLock hpc h1
    have hrfl2 := @step_from_pushResult m target n i _ _ kp (by simp) h2
    subst hrfl2
    have hrfl3 := step_from_incFound (by simp) h3
    subst hrfl3
    have hrfl4 := @step_from_unlockStep m target n i _ _ (s.found_count + 1)
      (by simp) h4
    subst hrfl4
    rcases @step_from_checkThreshold m target n i _ _ (s.found_count + 1)
      (by simp) h5 with ⟨hthr, rfl⟩ | ⟨hthr, rfl⟩
    · simp only [reportSteps]
      rw [if_pos hthr]
      simp [SearchState.mk.injEq, Function.update_idem]
    · simp only [reportSteps]
      rw [if_neg (Nat.not_le.mpr hthr)]
      simp [SearchState.mk.injEq, Function.update_idem]

/-- Witness for C8 at a concrete one-worker state at the acquisition
point. -/
theorem C8_report_refinement_witness :
    (∃ s1 s2 s3 s4, Step overshootMatcher 1 1 0 c8State s1 ∧
      Step overshootMatcher 1 1 0 s1 s2 ∧ Step overshootMatcher 1 1 0 s2 s3 ∧
      Step overshootMatcher 1 1 0 s3 s4 ∧
      Step overshootMatcher 1 1 0 s4 (reportSteps 1 0 okp c8State)) ∧
    SearchState.view (reportSteps 1 0 okp c8State) =
      specReportSequence 1 (SearchState.view c8State) okp ∧
    (reportSteps 1 0 okp c8State).pcs = Function.update c8State.pcs 0 .loopHead ∧
    (reportSteps 1 0 okp c8State).attempts = c8State.attempts ∧
    (reportSteps 1 0 okp c8State).lock = none ∧
    (∀ t1 t2 t3 t4 t5, Step overshootMatcher 1 1 0 c8State t1 →
      Step overshootMatcher 1 1 0 t1 t2 → Step overshootMatcher 1 1 0 t2 t3 →
      Step overshootMatcher 1 1 0 t3 t4 → Step overshootMatcher 1 1 0 t4 t5 →
      t5 = reportSteps 1 0 okp c8State) :=
  C8_report_refinement 1 1 overshootMatcher 0 okp c8State rfl rfl

end Vanity
